import Mathlib

/-!
Shallow embedding of the core of `src/script.js` from
swagger-endpoint-overlap-checker: path normalization, segment matching,
endpoint-index extraction and the two overlap queries.

JavaScript strings are modelled as Lean `String`; the JS objects holding
`paths` and per-path methods are modelled as ordered association lists,
matching the insertion-order iteration of `for...in` / `Object.entries`.
-/

/-- A swagger document as seen by the core: the optional `paths` member maps
path strings to objects whose own keys are method names (values of type `α`
are never inspected).  `paths = none` models a document without a `paths`
field (`swaggerObject.paths === undefined`). -/
structure SwaggerDoc (α : Type) where
  paths : Option (List (String × List (String × α)))

/-- An overlap record `{path1, path2}` as pushed by `findOverlappingEndpoints`. -/
structure OverlapRecord where
  path1 : String
  path2 : String
deriving DecidableEq, Repr

/-- Embedding of `extractEndpointsWithMethods` (script.js lines 14-25): for each key of
`swaggerObject.paths`, store `Object.keys(paths[path])`.  `for...in` over
`undefined` (a missing `paths` field) performs zero iterations, so the
result is the empty tree in that case; no exception is possible. -/
def extractEndpointsWithMethods (swaggerObject : SwaggerDoc α) : List (String × List String) :=
  match swaggerObject.paths with
  | none => []
  | some paths => paths.map (fun e => (e.1, e.2.map Prod.fst))

/-- Removal of the final character of a reversed character list when that
character is `'/'`: the reversed-list form of the `/\/$/` deletion. -/
def stripTrailingSlashRev (r : List Char) : List Char :=
  if r.head? = some '/' then r.tail else r

/-- Embedding of `normalizePath` (script.js line 30): `path.replace(/\/$/, '')`,
i.e. remove one trailing `'/'` when present, otherwise return the input
unchanged. -/
def normalizePath (path : String) : String :=
  String.mk (stripTrailingSlashRev path.data.reverse).reverse

/-- Embedding of `String.prototype.split('/')` on the character list of a JS
string: `""` yields `[""]`, a leading separator yields a leading empty token. -/
def splitSlash : List Char → List (List Char)
  | [] => [[]]
  | c :: cs =>
    if c = '/' then
      [] :: splitSlash cs
    else
      match splitSlash cs with
      | [] => [[c]]
      | seg :: segs => (c :: seg) :: segs

/-- The positional loop of `pathIncludesSegments` (script.js lines 70-74):
position `i` matches when the tokens are equal or the existing-side token
starts with `'{'`; the loop runs under the prior equal-length check. -/
def segPositionsMatch : List (List Char) → List (List Char) → Bool
  | g :: gs, e :: es => (g == e || e.head? == some '{') && segPositionsMatch gs es
  | _, _ => true

/-- Embedding of `pathIncludesSegments` (script.js lines 62-77): split both paths on
`'/'`; different segment counts mean no overlap; otherwise every position
must match under `segPositionsMatch`. -/
def pathIncludesSegments (givenPath existingPath : String) : Bool :=
  let givenSegments := splitSlash givenPath.data
  let existingSegments := splitSlash existingPath.data
  givenSegments.length == existingSegments.length &&
    segPositionsMatch givenSegments existingSegments

/-- Embedding of `givenMethod.toLowerCase()` on the character-list model of the string:
per character, the ASCII mapping `Char.toLower` (characters `'A'..'Z'` are
shifted down by 32, all others are unchanged), which agrees with the
JavaScript conversion on the ASCII strings that occur as method tokens. -/
def jsToLowerString (s : String) : String :=
  String.mk (s.data.map Char.toLower)

/-- The loop body of `isPathOverlapping` (script.js lines 35-45): walk the
entries in insertion order; the first entry whose normalized key matches the
(already normalized) given path by equality or by `pathIncludesSegments`,
and whose method list contains the normalized given method when one is
present, yields that normalized key. -/
def isPathOverlappingAux (givenPath : String) (normalizedGivenMethod : Option String) :
    List (String × List String) → Option String
  | [] => none
  | (path, methods) :: rest =>
    let normalizedPath := normalizePath path
    if (givenPath == normalizedPath || pathIncludesSegments givenPath normalizedPath)
        && (match normalizedGivenMethod with
            | none => true
            | some m => methods.contains m) then
      some normalizedPath
    else
      isPathOverlappingAux givenPath normalizedGivenMethod rest

/-- Embedding of `isPathOverlapping` (script.js lines 28-47).  The given path is
normalized; the given method is lower-cased when truthy (`null` and the
empty string are both falsy in `givenMethod ? ... : null`, hence both map
to `none`).  Returns the matching entry's normalized key, or `none` for the
function's `return false`. -/
def isPathOverlapping (givenPath : String) (givenMethod : Option String)
    (existingPaths : List (String × List String)) : Option String :=
  let normalizedGiven := normalizePath givenPath
  let normalizedGivenMethod :=
    match givenMethod with
    | some m => if m = "" then none else some (jsToLowerString m)
    | none => none
  isPathOverlappingAux normalizedGiven normalizedGivenMethod existingPaths

/-- JS truthiness of the value returned by `isPathOverlapping`: `false` and
the empty string are falsy, any other string is truthy. -/
def jsTruthy : Option String → Bool
  | none => false
  | some s => s != ""

/-- The nested loops of `findOverlappingEndpoints` (script.js lines 83-89):
for each outer path, every later path is probed as a singleton existing-path
object; a truthy result pushes `{path1: outer, path2: later}`. -/
def findOverlapsAux : List (String × List String) → List OverlapRecord
  | [] => []
  | (path, _) :: rest =>
    (rest.filterMap fun e =>
      if jsTruthy (isPathOverlapping path none [e]) then
        some ⟨path, e.1⟩
      else
        none)
      ++ findOverlapsAux rest

/-- Embedding of `findOverlappingEndpoints` (script.js lines 79-92). -/
def findOverlappingEndpoints (endpointsWithMethods : List (String × List String)) :
    List OverlapRecord :=
  findOverlapsAux endpointsWithMethods

/-- Index construction as the spec's error-handling section words it
(refinement comparison for the construction claim): a document whose path
collection is missing makes construction fail (`none`), producing no index;
otherwise every declared path is indexed with the keys of its method object. -/
def buildPerSpec (doc : SwaggerDoc α) : Option (List (String × List String)) :=
  doc.paths.map (fun paths => paths.map (fun e => (e.1, e.2.map Prod.fst)))

/-- The single-candidate lookup as the claim about `isPathOverlapping` words
it (refinement comparison): walk the entries in insertion order and return
the stored key of the first entry whose key — compared as stored, without
normalization — matches the normalized candidate by equality or by
`pathIncludesSegments`, subject to the same method condition as the code. -/
def checkSingleSpecAux (candidatePath : String) (candidateMethod : Option String) :
    List (String × List String) → Option String
  | [] => none
  | (key, methods) :: rest =>
    if (candidatePath == key || pathIncludesSegments candidatePath key)
        && (match candidateMethod with
            | none => true
            | some m => methods.contains m) then
      some key
    else
      checkSingleSpecAux candidatePath candidateMethod rest

/-- Entry point of the claim-worded lookup: normalize the candidate path,
lower-case a present (truthy) candidate method, then scan the stored keys. -/
def checkSingleSpec (candidatePath : String) (candidateMethod : Option String)
    (index : List (String × List String)) : Option String :=
  let cp := normalizePath candidatePath
  let cm :=
    match candidateMethod with
    | some m => if m = "" then none else some (jsToLowerString m)
    | none => none
  checkSingleSpecAux cp cm index

/-- All pairs of keys `(key_i, key_j)` with `i < j`, enumerated with the
outer index ascending and, within it, the inner index ascending — the order
in which `findOverlappingEndpoints` visits pairs. -/
def allOrderedPairs : List String → List (String × String)
  | [] => []
  | p :: rest => (rest.map fun q => (p, q)) ++ allOrderedPairs rest

/-- The shape test `findOverlappingEndpoints` effectively applies to a pair
of keys: the truthiness of the method-less single probe, which depends on
the two key strings only. -/
def shapeOverlap (p q : String) : Bool :=
  jsTruthy (isPathOverlapping p none [(q, [])])

/-- Does the string contain an ASCII uppercase letter? -/
def hasUpper (s : String) : Bool :=
  s.data.any (fun c => decide ('A' ≤ c ∧ c ≤ 'Z'))

theorem normalizePath_of_getLast?_ne (p : String) (h : p.data.getLast? ≠ some '/') :
    normalizePath p = p := by
  unfold normalizePath stripTrailingSlashRev
  rw [List.head?_reverse, if_neg h, List.reverse_reverse]

theorem normalizePath_of_getLast?_eq (p : String) (h : p.data.getLast? = some '/') :
    (normalizePath p).data = p.data.dropLast := by
  unfold normalizePath stripTrailingSlashRev
  rw [List.head?_reverse, if_pos h]
  rcases hr : p.data.reverse with _ | ⟨c, ts⟩
  · simp [← List.head?_reverse, hr] at h
  · have hp : p.data = ts.reverse ++ [c] := by
      have := congrArg List.reverse hr
      simpa using this
    simp [hp]

theorem normalizePath_rev_cons (p : String) (ts : List Char)
    (h : p.data.reverse = '/' :: ts) : normalizePath p = String.mk ts.reverse := by
  unfold normalizePath stripTrailingSlashRev
  rw [h]
  simp

/-- Claim C4 counterexample: `normalizePath` is not idempotent — for the
input `"//"` one application yields `"/"` and a second application yields
`""`. -/
theorem normalizePath_not_idempotent :
    normalizePath (normalizePath "//") ≠ normalizePath "//" := by decide

/-- Claim C4 (amended): `normalizePath` strips exactly one trailing `'/'`
when present (removing it recovers the input) and returns a string with no
trailing `'/'` unchanged; it is idempotent exactly on the strings that do
not end in two consecutive slashes. -/
theorem normalizePath_strip_one_and_idempotency :
    (∀ p : String, p.data.getLast? ≠ some '/' → normalizePath p = p) ∧
    (∀ p : String, p.data.getLast? = some '/' →
      (normalizePath p).data ++ ['/'] = p.data) ∧
    (∀ p : String,
      normalizePath (normalizePath p) = normalizePath p ↔
        p.data.reverse.take 2 ≠ ['/', '/']) := by
  refine ⟨normalizePath_of_getLast?_ne, ?_, ?_⟩
  · intro p h
    rw [normalizePath_of_getLast?_eq p h]
    rcases hr : p.data.reverse with _ | ⟨c, ts⟩
    · simp [← List.head?_reverse, hr] at h
    · have hc : c = '/' := by
        have hh : p.data.reverse.head? = some '/' := by rw [List.head?_reverse]; exact h
        rw [hr] at hh
        simpa using hh
      have hp : p.data = ts.reverse ++ [c] := by
        have := congrArg List.reverse hr
        simpa using this

      subst hc
      simp [hp]
  · intro p
    constructor
    · intro hidem htake
      rcases hr : p.data.reverse with _ | ⟨c, ts⟩
      · rw [hr] at htake; simp at htake
      · rcases hts : ts with _ | ⟨d, us⟩
        · rw [hr, hts] at htake; simp at htake
        · rw [hr, hts] at htake
          simp only [List.take, List.cons.injEq, and_true] at htake
          obtain ⟨hc, hd⟩ := htake
          subst hc; subst hd
          rw [hts] at hr
          have h1 : normalizePath p = String.mk (('/' :: us).reverse) :=
            normalizePath_rev_cons p _ hr
          have h2 : normalizePath (normalizePath p) = String.mk us.reverse := by
            apply normalizePath_rev_cons
            rw [h1]
            simp
          rw [h2, h1] at hidem
          have := congrArg (fun s => s.data.length) hidem
          simp at this
    · intro htake
      rcases hr : p.data.reverse with _ | ⟨c, ts⟩
      · have h1 : normalizePath p = p := by
          apply normalizePath_of_getLast?_ne
          rw [← List.head?_reverse, hr]
          simp
        rw [h1, h1]
      · by_cases hc : c = '/'
        · subst hc
          have h1 : normalizePath p = String.mk ts.reverse :=
            normalizePath_rev_cons p _ hr
          have hts : ts.head? ≠ some '/' := by
            rcases ts with _ | ⟨d, us⟩
            · simp
            · rw [hr] at htake
              intro hd
              simp only [List.head?_cons, Option.some.injEq] at hd
              subst hd
              simp at htake
          have h2 : normalizePath (String.mk ts.reverse) = String.mk ts.reverse := by
            apply normalizePath_of_getLast?_ne
            show (String.mk ts.reverse).data.getLast? ≠ some '/'
            have : (String.mk ts.reverse).data.getLast? = ts.head? := by
              rw [← List.head?_reverse]
              simp
            rw [this]
            exact hts
          rw [h1, h2]
        · have h1 : normalizePath p = p := by
            apply normalizePath_of_getLast?_ne
            rw [← List.head?_reverse, hr]
            simpa using hc
          rw [h1, h1]
/-- Witness for the amended C4 theorem at concrete inputs `"/a/b"` and
`"/a/b/"`. -/
theorem normalizePath_strip_one_and_idempotency_witness :
    normalizePath "/a/b" = "/a/b" ∧
    (normalizePath "/a/b/").data ++ ['/'] = "/a/b/".data ∧
    normalizePath (normalizePath "/a/b/") = normalizePath "/a/b/" :=
  ⟨normalizePath_strip_one_and_idempotency.1 "/a/b" (by decide),
   normalizePath_strip_one_and_idempotency.2.1 "/a/b/" (by decide),
   (normalizePath_strip_one_and_idempotency.2.2 "/a/b/").mpr (by decide)⟩

/-- Claim C2 counterexample: on a document with no path collection the code
does not fail — `extractEndpointsWithMethods` returns the empty (valid)
index, exactly as it does for a present-but-empty collection, whereas the
construction the spec words (`buildPerSpec`) refuses the document. -/
theorem extract_no_paths_succeeds :
    extractEndpointsWithMethods ({ paths := none } : SwaggerDoc Unit) = [] ∧
    extractEndpointsWithMethods ({ paths := some [] } : SwaggerDoc Unit) = [] ∧
    buildPerSpec ({ paths := none } : SwaggerDoc Unit) = none := by
  exact ⟨rfl, rfl, rfl⟩

/-- Claim C2 (amended): `extractEndpointsWithMethods` never fails — a
document with no path collection yields the empty index (the `for...in`
loop over `undefined` runs zero iterations), exactly as a document with an
empty path collection does. -/
theorem extract_total_on_missing_or_empty_paths :
    (∀ (α : Type) (doc : SwaggerDoc α), doc.paths = none →
      extractEndpointsWithMethods doc = []) ∧
    (∀ (α : Type) (doc : SwaggerDoc α), doc.paths = some [] →
      extractEndpointsWithMethods doc = []) := by
  constructor
  · intro α doc h
    unfold extractEndpointsWithMethods
    rw [h]
  · intro α doc h
    unfold extractEndpointsWithMethods
    rw [h]
    rfl

/-- Witness for the amended C2 theorem at two concrete documents. -/
theorem extract_total_on_missing_or_empty_paths_witness :
    extractEndpointsWithMethods ({ paths := none } : SwaggerDoc Nat) = [] ∧
    extractEndpointsWithMethods ({ paths := some [] } : SwaggerDoc Nat) = [] :=
  ⟨extract_total_on_missing_or_empty_paths.1 Nat { paths := none } rfl,
   extract_total_on_missing_or_empty_paths.2 Nat { paths := some [] } rfl⟩

/-- Claim C3 counterexample: the index built from a document declaring the
path `"/a/"` holds the key `"/a/"` verbatim, and that key is not normalized
(`normalizePath` still removes its trailing slash). -/
theorem extract_key_not_normalized :
    (extractEndpointsWithMethods
        ({ paths := some [("/a/", [("get", ())])] } : SwaggerDoc Unit)).map Prod.fst =
      ["/a/"] ∧
    normalizePath "/a/" ≠ "/a/" := by
  exact ⟨rfl, by decide⟩

/-- Claim C3 (amended): `extractEndpointsWithMethods` stores every path key
verbatim as it appears in the document — no normalization is applied at
build time (normalization happens inside the overlap queries instead), so a
declared key keeps any trailing slash. -/
theorem extract_keys_verbatim :
    ∀ (α : Type) (doc : SwaggerDoc α),
      (extractEndpointsWithMethods doc).map Prod.fst =
        (doc.paths.getD []).map Prod.fst := by
  intro α doc
  unfold extractEndpointsWithMethods
  cases doc.paths with
  | none => rfl
  | some paths => simp

theorem segPositionsMatch_iff :
    ∀ gs es : List (List Char), gs.length = es.length →
      (segPositionsMatch gs es = true ↔
        ∀ i, i < gs.length →
          gs.getD i [] = es.getD i [] ∨ (es.getD i []).head? = some '{')
  | [], [] => by
    intro _
    simp [segPositionsMatch]
  | [], e :: es => by
    intro h
    simp at h
  | g :: gs, [] => by
    intro h
    simp at h
  | g :: gs, e :: es => by
    intro hlen
    have ih := segPositionsMatch_iff gs es (by simpa using hlen)
    simp only [segPositionsMatch, Bool.and_eq_true, Bool.or_eq_true, beq_iff_eq]
    constructor
    · rintro ⟨hhead, htail⟩ i hi
      cases i with
      | zero => simpa using hhead
      | succ n =>
        simp only [List.getD_cons_succ]
        exact (ih.mp htail) n (by simpa using hi)
    · intro hall
      refine ⟨?_, ih.mpr ?_⟩
      · simpa using hall 0 (by simp)
      · intro n hn
        have := hall (n + 1) (by simpa using hn)
        simpa using this

/-- Claim C5 (confirmed): `pathIncludesSegments candidate existing` is true
exactly when the two paths split on `'/'` into equally many segments and at
every position the tokens are identical or the existing-side token begins
with `'{'`; different segment counts always yield false, and a brace token
on the candidate side is not treated as a wildcard (concrete instance:
`"/a/{id}"` against `"/a/b"` is false). -/
theorem pathIncludesSegments_spec :
    (∀ givenPath existingPath : String,
      pathIncludesSegments givenPath existingPath = true ↔
        ((splitSlash givenPath.data).length = (splitSlash existingPath.data).length ∧
          ∀ i, i < (splitSlash givenPath.data).length →
            (splitSlash givenPath.data).getD i [] =
                (splitSlash existingPath.data).getD i [] ∨
              ((splitSlash existingPath.data).getD i []).head? = some '{')) ∧
    (∀ givenPath existingPath : String,
      (splitSlash givenPath.data).length ≠ (splitSlash existingPath.data).length →
      pathIncludesSegments givenPath existingPath = false) ∧
    pathIncludesSegments "/a/{id}" "/a/b" = false := by
  refine ⟨?_, ?_, by decide⟩
  · intro g e
    unfold pathIncludesSegments
    simp only [Bool.and_eq_true, beq_iff_eq]
    constructor
    · rintro ⟨hlen, hm⟩
      exact ⟨hlen, (segPositionsMatch_iff _ _ hlen).mp hm⟩
    · rintro ⟨hlen, hall⟩
      exact ⟨hlen, (segPositionsMatch_iff _ _ hlen).mpr hall⟩
  · intro g e h
    unfold pathIncludesSegments
    simp [Nat.ne_of_lt, h]

/-- Witness for the C5 theorem: the length-mismatch clause applied to the
concrete pair from the spec, `"/a/b/c"` against `"/a/b"`. -/
theorem pathIncludesSegments_spec_witness :
    pathIncludesSegments "/a/b/c" "/a/b" = false :=
  pathIncludesSegments_spec.2.1 "/a/b/c" "/a/b" (by decide)

/-- Claim C10 (confirmed): `isPathOverlapping` treats an empty-string given
method exactly like an absent one — `givenMethod ? ... : null` evaluates the
empty string as falsy, so the method condition is skipped in both cases. -/
theorem checkSingle_empty_method_like_absent :
    ∀ (path : String) (index : List (String × List String)),
      isPathOverlapping path (some "") index = isPathOverlapping path none index := by
  intro p idx
  rfl

/-- Claim C1 counterexample: for the index built from a document declaring,
in this insertion order, `"/a/{id}"`, `"/a/b"`, `"/c"`,
`findOverlappingEndpoints` returns the empty list — not the claimed
one-element list — because each pair is probed with only the later path's
brace tokens acting as wildcards and `"/a/b"` has none. -/
theorem checkAll_spec_example_returns_nothing :
    findOverlappingEndpoints (extractEndpointsWithMethods
        ({ paths := some [("/a/{id}", [("get", ())]), ("/a/b", [("get", ())]),
            ("/c", [("get", ())])] } : SwaggerDoc Unit)) = [] ∧
    findOverlappingEndpoints (extractEndpointsWithMethods
        ({ paths := some [("/a/{id}", [("get", ())]), ("/a/b", [("get", ())]),
            ("/c", [("get", ())])] } : SwaggerDoc Unit)) ≠
      [{ path1 := "/a/{id}", path2 := "/a/b" }] := by
  constructor
  · rfl
  · decide

/-- Claim C1 (amended): for the declared insertion order `"/a/{id}"`,
`"/a/b"`, `"/c"` the scan reports nothing, since only the later
(existing-side) path of a pair may carry wildcard tokens; with `"/a/b"`
declared before `"/a/{id}"` it returns exactly the single record
`{path1 := "/a/b", path2 := "/a/{id}"}`, with no record involving `"/c"`. -/
theorem checkAll_wildcard_side_depends_on_order :
    findOverlappingEndpoints (extractEndpointsWithMethods
        ({ paths := some [("/a/{id}", [("get", ())]), ("/a/b", [("get", ())]),
            ("/c", [("get", ())])] } : SwaggerDoc Unit)) = [] ∧
    findOverlappingEndpoints (extractEndpointsWithMethods
        ({ paths := some [("/a/b", [("get", ())]), ("/a/{id}", [("get", ())]),
            ("/c", [("get", ())])] } : SwaggerDoc Unit)) =
      [{ path1 := "/a/b", path2 := "/a/{id}" }] := by
  exact ⟨rfl, rfl⟩

/-- Claim C9 (confirmed): the pairs reported by `findOverlappingEndpoints`
depend on the insertion order of the keys and not only on their set — the
two-element indexes holding `"/a/b"` and `"/a/{id}"` in the two possible
orders have permuted key lists, yet one scan reports the overlapping pair
and the other reports nothing. -/
theorem checkAll_depends_on_insertion_order :
    List.Perm
        (([("/a/b", ["get"]), ("/a/{id}", ["get"])] :
            List (String × List String)).map Prod.fst)
        (([("/a/{id}", ["get"]), ("/a/b", ["get"])] :
            List (String × List String)).map Prod.fst) ∧
    findOverlappingEndpoints [("/a/b", ["get"]), ("/a/{id}", ["get"])] =
      [{ path1 := "/a/b", path2 := "/a/{id}" }] ∧
    findOverlappingEndpoints [("/a/{id}", ["get"]), ("/a/b", ["get"])] = [] := by
  refine ⟨by decide, rfl, rfl⟩

theorem isPathOverlappingAux_eq_specAux (g : String) (nm : Option String) :
    ∀ idx : List (String × List String),
      isPathOverlappingAux g nm idx =
        checkSingleSpecAux g nm (idx.map (fun e => (normalizePath e.1, e.2)))
  | [] => rfl
  | (k, ms) :: rest => by
    simp only [isPathOverlappingAux, checkSingleSpecAux, List.map_cons]
    rw [isPathOverlappingAux_eq_specAux g nm rest]

/-- Claim C6 counterexample: on an index whose stored key `"/a/"` is not
normalized, the code normalizes the key before comparing and before
returning — `isPathOverlapping` finds `"/a"`, while the claim's algorithm
(`checkSingleSpec`, comparing and returning the stored key) finds nothing. -/
theorem checkSingle_normalizes_stored_keys_counterexample :
    isPathOverlapping "/a" none [("/a/", ["get"])] = some "/a" ∧
    checkSingleSpec "/a" none [("/a/", ["get"])] = none := by
  exact ⟨rfl, rfl⟩

/-- Claim C6 (amended): `isPathOverlapping` runs exactly the claimed
first-match scan in insertion order, except that each entry's key is also
normalized before the equality / segment-overlap comparison and the
normalized key is what is returned; on an index whose keys are all already
normalized it behaves exactly as the claim states. -/
theorem checkSingle_first_match_on_normalized_keys :
    (∀ (p : String) (m : Option String) (idx : List (String × List String)),
      isPathOverlapping p m idx =
        checkSingleSpec p m (idx.map (fun e => (normalizePath e.1, e.2)))) ∧
    (∀ (p : String) (m : Option String) (idx : List (String × List String)),
      (∀ e ∈ idx, normalizePath e.1 = e.1) →
      isPathOverlapping p m idx = checkSingleSpec p m idx) := by
  have base : ∀ (p : String) (m : Option String) (idx : List (String × List String)),
      isPathOverlapping p m idx =
        checkSingleSpec p m (idx.map (fun e => (normalizePath e.1, e.2))) := by
    intro p m idx
    unfold isPathOverlapping checkSingleSpec
    exact isPathOverlappingAux_eq_specAux _ _ idx
  refine ⟨base, ?_⟩
  intro p m idx h
  rw [base]
  have hmap : idx.map (fun e => (normalizePath e.1, e.2)) = idx := by
    have : ∀ e ∈ idx, (normalizePath e.1, e.2) = e := by
      intro e he
      rw [h e he]
    calc idx.map (fun e => (normalizePath e.1, e.2)) = idx.map id :=
          List.map_congr_left this
      _ = idx := List.map_id idx
  rw [hmap]

/-- Witness for the amended C6 theorem: the spec's own lookup example, an
index with the single normalized key `"/a/{id}"`. -/
theorem checkSingle_first_match_on_normalized_keys_witness :
    isPathOverlapping "/a/b" (some "get") [("/a/{id}", ["get", "post"])] =
      checkSingleSpec "/a/b" (some "get") [("/a/{id}", ["get", "post"])] :=
  checkSingle_first_match_on_normalized_keys.2 "/a/b" (some "get")
    [("/a/{id}", ["get", "post"])] (by decide)

theorem isPathOverlapping_none_singleton_methods (p k : String) (ms : List String) :
    isPathOverlapping p none [(k, ms)] = isPathOverlapping p none [(k, [])] := by
  simp [isPathOverlapping, isPathOverlappingAux]

theorem findOverlapsAux_filter_pairs :
    ∀ idx : List (String × List String),
      findOverlapsAux idx =
        (allOrderedPairs (idx.map Prod.fst)).filterMap
          (fun pq => if shapeOverlap pq.1 pq.2 then
              some { path1 := pq.1, path2 := pq.2 } else none)
  | [] => rfl
  | (p, ms) :: rest => by
    simp only [findOverlapsAux, List.map_cons, allOrderedPairs, List.filterMap_append]
    rw [findOverlapsAux_filter_pairs rest]
    congr 1
    rw [List.filterMap_map, List.filterMap_map]
    apply List.filterMap_congr
    intro e he
    rcases e with ⟨k, msk⟩
    simp only [Function.comp, shapeOverlap]
    rw [isPathOverlapping_none_singleton_methods p k msk]

/-- Claim C7 (confirmed): `findOverlappingEndpoints` never inspects method
sets — two indexes with identical key sequences produce identical record
lists — and its output is exactly the order-preserving filter of the pair
list enumerated with the outer insertion index ascending and the inner
index ascending within it. -/
theorem checkAll_method_agnostic_and_ordered :
    (∀ idx1 idx2 : List (String × List String),
      idx1.map Prod.fst = idx2.map Prod.fst →
      findOverlappingEndpoints idx1 = findOverlappingEndpoints idx2) ∧
    (∀ idx : List (String × List String),
      findOverlappingEndpoints idx =
        (allOrderedPairs (idx.map Prod.fst)).filterMap
          (fun pq => if shapeOverlap pq.1 pq.2 then
              some { path1 := pq.1, path2 := pq.2 } else none)) := by
  refine ⟨?_, fun idx => findOverlapsAux_filter_pairs idx⟩
  intro idx1 idx2 h
  show findOverlapsAux idx1 = findOverlapsAux idx2
  rw [findOverlapsAux_filter_pairs, findOverlapsAux_filter_pairs, h]

/-- Witness for the C7 theorem: two concrete indexes sharing keys but with
disjoint method sets produce the same single record. -/
theorem checkAll_method_agnostic_and_ordered_witness :
    findOverlappingEndpoints [("/a/b", ["get"]), ("/a/{id}", ["post"])] =
      findOverlappingEndpoints [("/a/b", []), ("/a/{id}", ["delete", "put"])] :=
  checkAll_method_agnostic_and_ordered.1 [("/a/b", ["get"]), ("/a/{id}", ["post"])]
    [("/a/b", []), ("/a/{id}", ["delete", "put"])] (by decide)

theorem toNat_ofNat_of_le (n : Nat) (h1 : 97 ≤ n) (h2 : n ≤ 122) :
    (Char.ofNat n).toNat = n := by
  unfold Char.ofNat
  have hv : Char.isValidCharNat n := by
    unfold Char.isValidCharNat
    omega
  rw [dif_pos hv]
  rfl

theorem toLower_not_upper (c : Char) :
    ¬('A' ≤ Char.toLower c ∧ Char.toLower c ≤ 'Z') := by
  unfold Char.toLower
  intro hcon
  obtain ⟨hl, hr⟩ := hcon
  by_cases h : c.toNat ≥ 65 ∧ c.toNat ≤ 90
  · rw [if_pos h] at hl hr
    have h90 : (Char.ofNat (c.toNat + 32)).toNat = c.toNat + 32 :=
      toNat_ofNat_of_le _ (by omega) (by omega)
    have hA : (65 : Nat) ≤ (Char.ofNat (c.toNat + 32)).toNat :=
      BitVec.le_def.mp (UInt32.le_def.mp (Char.le_def.mp hl))
    have hZ : (Char.ofNat (c.toNat + 32)).toNat ≤ 90 :=
      BitVec.le_def.mp (UInt32.le_def.mp (Char.le_def.mp hr))
    omega
  · rw [if_neg h] at hl hr
    have hA : (65 : Nat) ≤ c.toNat :=
      BitVec.le_def.mp (UInt32.le_def.mp (Char.le_def.mp hl))
    have hZ : c.toNat ≤ 90 :=
      BitVec.le_def.mp (UInt32.le_def.mp (Char.le_def.mp hr))
    exact h ⟨hA, hZ⟩

theorem hasUpper_jsToLowerString (s : String) :
    hasUpper (jsToLowerString s) = false := by
  unfold hasUpper jsToLowerString
  rw [show (String.mk (s.data.map Char.toLower)).data = s.data.map Char.toLower from rfl]
  rw [List.any_map, List.any_eq_false]
  intro c hc
  simp only [Function.comp]
  exact fun habs => toLower_not_upper c (of_decide_eq_true habs)

theorem isPathOverlappingAux_all_upper (g lm : String) (hlm : hasUpper lm = false) :
    ∀ idx : List (String × List String),
      (∀ e ∈ idx, ∀ tok ∈ e.2, hasUpper tok = true) →
      isPathOverlappingAux g (some lm) idx = none
  | [] => fun _ => rfl
  | (k, ms) :: rest => fun h => by
    have hmem : lm ∉ ms := by
      intro hmemlm
      have := h (k, ms) (List.mem_cons_self _ _) lm hmemlm
      rw [hlm] at this
      exact Bool.false_ne_true this
    have hcontains : ms.contains lm = false := by
      simpa using hmem
    simp only [isPathOverlappingAux, hcontains, Bool.and_false, if_neg,
      Bool.false_eq_true, not_false_eq_true]
    exact isPathOverlappingAux_all_upper g lm hlm rest
      (fun e he => h e (List.mem_cons_of_mem _ he))

/-- Claim C8 (confirmed): method tokens are stored verbatim by the
extraction (the keys of each path's method object, with no case folding),
while `isPathOverlapping` lower-cases the given method before an exact
membership test; hence no entry whose stored tokens all contain an
uppercase letter can ever match a present given method, and in the spec's
example the entry is skipped because `"delete"` is absent from
`["get", "post"]`. -/
theorem methods_verbatim_and_lowercased_query :
    (∀ (α : Type) (doc : SwaggerDoc α),
      (extractEndpointsWithMethods doc).map Prod.snd =
        (doc.paths.getD []).map (fun e => e.2.map Prod.fst)) ∧
    (∀ (givenPath m : String) (idx : List (String × List String)),
      m ≠ "" →
      (∀ e ∈ idx, ∀ tok ∈ e.2, hasUpper tok = true) →
      isPathOverlapping givenPath (some m) idx = none) ∧
    isPathOverlapping "/a/b" (some "delete") [("/a/{id}", ["get", "post"])] = none := by
  refine ⟨?_, ?_, by rfl⟩
  · intro α doc
    unfold extractEndpointsWithMethods
    cases doc.paths with
    | none => rfl
    | some paths => simp
  · intro g m idx hm hup
    simp only [isPathOverlapping]
    rw [if_neg hm]
    exact isPathOverlappingAux_all_upper _ _ (hasUpper_jsToLowerString m) idx hup

/-- Witness for the C8 theorem: an index whose only entry stores the token
`"GET"`; the lower-cased query `"get"` cannot match it even though the path
shapes coincide. -/
theorem methods_verbatim_and_lowercased_query_witness :
    isPathOverlapping "/x" (some "get") [("/x", ["GET"])] = none :=
  methods_verbatim_and_lowercased_query.2.1 "/x" "get" [("/x", ["GET"])]
    (by decide) (by decide)

